import Mathlib

/-!
Shallow embedding of the recursive-descent parser in
src/src/interpreter/parser.rs.

The parser state (current token + remaining queue) is modelled as a single
List Kind whose head is the current token; an empty list stands for the
sentinel "none" token installed by the token cursor when the queue runs dry.
Mutually recursive productions carry a fuel parameter (the source recursion
terminates because every production consumes tokens; fuel exhaustion is an
explicit error that never fires at the fuel bounds used by the wrappers).
-/

namespace RustInterp

/-- Modelled from the spec (the token/value module basic.rs is not under
src/): the payload extracted from a token, as consumed by the call-argument
fold. Float payloads are modelled as rationals; the parser never computes
with them, it only moves them around. -/
inductive KindValue where
  | FloatNumber (v : ℚ)
  | IntNumber (v : Int)
  | String (v : String)
deriving DecidableEq, Repr

/-- Modelled from the spec (basic.rs is not under src/): the token kinds the
grammar dispatches on — identifier text, integer literal, float literal,
operator symbol, parentheses, keyword text, the function-body marker FNOP,
the statement-assignment marker ASSIGN, and the sentinel None token. -/
inductive Kind where
  | None
  | Letter (v : String)
  | IntNumber (v : Int)
  | FloatNumber (v : ℚ)
  | Op (v : String)
  | LPAREN
  | RPAREN
  | Keyword (v : String)
  | FNOP
  | ASSIGN
deriving DecidableEq, Repr

/-- Modelled from the spec (basic.rs is not under src/): the numeric value
stored in a Num node. -/
inductive Value where
  | IntNumber (v : Int)
  | FloatNumber (v : ℚ)
deriving DecidableEq, Repr

/-- The AST node type of parser.rs. FunctionDef.body is an Rc in the source;
shared ownership is irrelevant to a pure tree, so it is a plain child. -/
inductive Node where
  | None
  | FunctionDef (name : String) (params : List Node) (body : Node)
  | Assign (left right : Node)
  | BinOp (left : Node) (op : String) (right : Node)
  | Num (value : Value) (next : Option Node)
  | Identifier (value : String) (next : Option Node)
deriving Repr

/-- Node::is_identifier. -/
def Node.is_identifier : Node → Bool
  | .Identifier _ _ => true
  | _ => false

/-- Node::identity_value. -/
def Node.identity_value : Node → Option String
  | .Identifier v _ => some v
  | _ => none

/-- Node::set_next_identity: sets the next field of an Identifier node,
leaves every other node unchanged. -/
def Node.set_next_identity : Node → Node → Node
  | .Identifier v _, nv => .Identifier v (some nv)
  | n, _ => n

/-- Token::is_letter (kind dispatch; a token is modelled by its kind). -/
def Kind.is_letter : Kind → Bool
  | .Letter _ => true
  | _ => false

/-- Token::is_numbers. -/
def Kind.is_numbers : Kind → Bool
  | .IntNumber _ => true
  | .FloatNumber _ => true
  | _ => false

/-- Token::is_none: the sentinel token. -/
def Kind.is_none : Kind → Bool
  | .None => true
  | _ => false

/-- Kind::is_op. -/
def Kind.is_op : Kind → Bool
  | .Op _ => true
  | _ => false

/-- The current token of the cursor: head of the list, or the sentinel. -/
def currTok (ts : List Kind) : Kind := ts.headD Kind.None

/-- The while-loop of Parser::_function_call_parameter: greedily collect the
payloads of the maximal prefix run of identifier/int/float tokens. -/
def callParamRun : List Kind → List KindValue × List Kind
  | .Letter v :: rest =>
      let p := callParamRun rest
      (.String v :: p.1, p.2)
  | .IntNumber v :: rest =>
      let p := callParamRun rest
      (.IntNumber v :: p.1, p.2)
  | .FloatNumber v :: rest =>
      let p := callParamRun rest
      (.FloatNumber v :: p.1, p.2)
  | ts => ([], ts)

/-- The fold of Parser::_function_call_parameter: iterate the collected run
from the last value to the first, wrapping the previously built chain as the
next of a new Num/Identifier node. -/
def buildChain (params : List KindValue) : Option Node :=
  params.foldr
    (fun value prev =>
      some (match value with
        | .FloatNumber v => Node.Num (.FloatNumber v) prev
        | .IntNumber v => Node.Num (.IntNumber v) prev
        | .String v => Node.Identifier v prev))
    none

/-- Parser::_function_call_parameter. -/
def _function_call_parameter (ts : List Kind) : Except String (Node × List Kind) :=
  let p := callParamRun ts
  .ok ((buildChain p.1).getD Node.None, p.2)

/-- The while-loop of Parser::_function_def_parameter: collect the maximal
run of identifier tokens as parameter nodes, rejecting a name already seen
(the source HashSet is modelled as a list with membership). -/
def fdpAux : List Kind → List String → Except String (List Node × List Kind)
  | .Letter name :: rest, seen =>
      if name ∈ seen then
        .error ("parameter name is duplicated! " ++ name)
      else do
        let p ← fdpAux rest (name :: seen)
        .ok (Node.Identifier name none :: p.1, p.2)
  | ts, _ => .ok ([], ts)

/-- Parser::_function_def_parameter. -/
def _function_def_parameter (ts : List Kind) : Except String (List Node × List Kind) :=
  fdpAux ts []

mutual

/-- Parser::_factor. -/
def _factor : Nat → List Kind → Except String (Node × List Kind)
  | 0, _ => .error "fuel exhausted"
  | _ + 1, .FloatNumber v :: rest => .ok (Node.Num (.FloatNumber v) none, rest)
  | _ + 1, .IntNumber v :: rest => .ok (Node.Num (.IntNumber v) none, rest)
  | fuel + 1, .Letter v :: rest =>
      match rest with
      | .Op o :: rest2 =>
          if o = "=" then do
            let p ← _expression fuel rest2
            .ok (Node.BinOp (Node.Identifier v none) o p.1, p.2)
          else
            .ok (Node.Identifier v none, .Op o :: rest2)
      | _ => .ok (Node.Identifier v none, rest)
  | fuel + 1, .LPAREN :: rest => do
      let p ← _expression fuel rest
      match p.2 with
      | .RPAREN :: rest2 => .ok (p.1, rest2)
      | _ => .error "Expected String: )"
  | _ + 1, _ => .error "Unknown Rules!"

/-- Parser::_term. -/
def _term : Nat → List Kind → Except String (Node × List Kind)
  | 0, _ => .error "fuel exhausted"
  | fuel + 1, ts => do
      let p ← _factor fuel ts
      _termLoop fuel p.1 p.2

/-- The while-loop of Parser::_term: fold *, /, % left-associatively; any
other operator is restored and ends the loop. -/
def _termLoop : Nat → Node → List Kind → Except String (Node × List Kind)
  | 0, _, _ => .error "fuel exhausted"
  | fuel + 1, result, .Op v :: rest =>
      if v = "*" ∨ v = "/" ∨ v = "%" then do
        let p ← _factor fuel rest
        _termLoop fuel (Node.BinOp result v p.1) p.2
      else
        .ok (result, .Op v :: rest)
  | _ + 1, result, ts => .ok (result, ts)

/-- Parser::_expression. -/
def _expression : Nat → List Kind → Except String (Node × List Kind)
  | 0, _ => .error "fuel exhausted"
  | fuel + 1, ts => do
      let p ← _term fuel ts
      _exprLoop fuel p.1 p.2

/-- The loop of Parser::_expression: fold ASSIGN and the additive operators
and attach call-argument runs, in the branch order of the source. -/
def _exprLoop : Nat → Node → List Kind → Except String (Node × List Kind)
  | 0, _, _ => .error "fuel exhausted"
  | fuel + 1, result, .ASSIGN :: rest => do
      let p ← _expression fuel rest
      _exprLoop fuel (Node.Assign result p.1) p.2
  | fuel + 1, result, .Op v :: rest =>
      if v = "+" ∨ v = "-" then do
        let p ← _term fuel rest
        _exprLoop fuel (Node.BinOp result v p.1) p.2
      else
        .ok (result, .Op v :: rest)
  | fuel + 1, result, t :: rest =>
      if t.is_letter || t.is_numbers then
        if result.is_identifier then do
          let p ← _function_call_parameter (t :: rest)
          _exprLoop fuel (result.set_next_identity p.1) p.2
        else
          .error "Syntax Error"
      else
        .ok (result, t :: rest)
  | _ + 1, result, [] => .ok (result, [])

/-- Parser::_function_expression. -/
def _function_expression : Nat → List Kind → Except String (Node × List Kind)
  | 0, _ => .error "fuel exhausted"
  | fuel + 1, .FNOP :: rest => _expression fuel rest
  | _ + 1, _ => .error "Syntax Error! function Expression"

/-- Parser::_function_def. -/
def _function_def : Nat → List Kind → Except String (Node × List Kind)
  | 0, _ => .error "fuel exhausted"
  | fuel + 1, .Letter name :: rest => do
      let ps ← _function_def_parameter rest
      let b ← _function_expression fuel ps.2
      .ok (Node.FunctionDef name ps.1 b.1, b.2)
  | _ + 1, _ => .error "Syntax Error! function must have fn-name"

/-- Parser::stmt. -/
def stmt : Nat → List Kind → Except String (Node × List Kind)
  | 0, _ => .error "fuel exhausted"
  | fuel + 1, .Keyword v :: rest =>
      if v ≠ "fn" then .error "syntax error!"
      else _function_def fuel rest
  | fuel + 1, ts => _expression fuel ts

end

/-- Fuel that amply covers one statement parse over the given tokens: the
grammar descends at most three fuel levels per consumed token. -/
def stmtFuel (ts : List Kind) : Nat := 3 * ts.length + 3

/-- Parser::_expression run with sufficient fuel for its input. -/
def parseExpression (ts : List Kind) : Except String (Node × List Kind) :=
  _expression (stmtFuel ts) ts

/-- The loop of Parser::parse: while the current token is not the sentinel,
parse one statement, hand it to the evaluator (a state-passing function
standing for the &mut dyn Evaluator), push it onto the ast vector and record
the evaluated value. Evaluator state survives an error, as a &mut borrow
does in the source. -/
def parseLoop {σ : Type} (eval : σ → Node → σ × Except String Value) :
    Nat → σ → List Kind → List Node → Option Value →
    σ × Except String (List Node × Option Value)
  | 0, s, _, _, _ => (s, .error "fuel exhausted")
  | fuel + 1, s, ts, ast, last =>
      if (currTok ts).is_none then
        (s, .ok (ast, last))
      else
        match stmt (stmtFuel ts) ts with
        | .error e => (s, .error e)
        | .ok p =>
            match eval s p.1 with
            | (s1, .error e) => (s1, .error e)
            | (s1, .ok v) => parseLoop eval fuel s1 p.2 (ast ++ [p.1]) (some v)

/-- Parser::parse. getResult models Value::get_result from the spec
(basic.rs is not under src/): the optional numeric summary extracted from
the last value of the evaluator, abstracted as a parameter; the parser treats it
opaquely. -/
def parse {σ : Type} (eval : σ → Node → σ × Except String Value)
    (getResult : Value → Option ℚ) (s : σ) (tokens : List Kind) :
    σ × Except String (Option ℚ) :=
  match parseLoop eval (tokens.length + 1) s tokens [] none with
  | (s1, .error e) => (s1, .error e)
  | (s1, .ok r) =>
      if 1 < r.1.length then (s1, .error "Syntax Error")
      else
        match r.2 with
        | some v => (s1, .ok (getResult v))
        | none => (s1, .error "None")

/-- Pure statement splitter: the statements the loop of Parser::parse would parse
from the queue, independent of any evaluator. Mirrors the parseLoop control
flow exactly (same per-statement fuel). -/
def splitStmtsAux : Nat → List Kind → Except String (List Node)
  | 0, _ => .error "fuel exhausted"
  | fuel + 1, ts =>
      if (currTok ts).is_none then
        .ok []
      else do
        let p ← stmt (stmtFuel ts) ts
        let rest ← splitStmtsAux fuel p.2
        .ok (p.1 :: rest)

/-- The top-level statement list of a token queue. -/
def splitStmts (ts : List Kind) : Except String (List Node) :=
  splitStmtsAux (ts.length + 1) ts

/-- An instrumenting evaluator: its state records every node it was asked to
evaluate, in order; it always succeeds. -/
def recordEval (s : List Node) (n : Node) : List Node × Except String Value :=
  (s ++ [n], .ok (.IntNumber 0))

/-- A trivial always-succeeding evaluator with no state. -/
def trivEval (s : Unit) (_ : Node) : Unit × Except String Value :=
  (s, .ok (.IntNumber 0))

/-- A trivial numeric-summary extractor. -/
def trivGetResult (_ : Value) : Option ℚ := none

/-- The token kinds that may appear in a call-argument run. -/
def isArgTok (t : Kind) : Bool := t.is_letter || t.is_numbers

/-- The leaf node a single literal or identifier token parses to. -/
def atomNode : Kind → Node
  | .Letter v => .Identifier v none
  | .IntNumber v => .Num (.IntNumber v) none
  | .FloatNumber v => .Num (.FloatNumber v) none
  | _ => .None

/-- A token is a literal or a plain identifier. -/
def isAtom (t : Kind) : Prop :=
  (∃ v, t = .Letter v) ∨ (∃ v, t = .IntNumber v) ∨ (∃ v, t = .FloatNumber v)

/-- A token is a numeric literal. -/
def isNumTok (t : Kind) : Prop :=
  (∃ v, t = .IntNumber v) ∨ (∃ v, t = .FloatNumber v)

/-- The payload values threaded through a call-argument chain, in next-field
order starting from the chain head. -/
def chainElemsN : Node → List KindValue
  | .Num (.IntNumber v) (some m) => .IntNumber v :: chainElemsN m
  | .Num (.IntNumber v) none => [.IntNumber v]
  | .Num (.FloatNumber v) (some m) => .FloatNumber v :: chainElemsN m
  | .Num (.FloatNumber v) none => [.FloatNumber v]
  | .Identifier v (some m) => .String v :: chainElemsN m
  | .Identifier v none => [.String v]
  | _ => []

/-- chainElemsN lifted to an optional chain head. -/
def chainElems : Option Node → List KindValue
  | some n => chainElemsN n
  | none => []

/-- The token a call-argument payload came from. -/
def kindOfVal : KindValue → Kind
  | .String v => .Letter v
  | .IntNumber v => .IntNumber v
  | .FloatNumber v => .FloatNumber v

/-- The names of the Identifier nodes in a parameter list. -/
def paramNames (ps : List Node) : List String :=
  ps.filterMap Node.identity_value

/-- The names of the maximal prefix run of identifier tokens. -/
def letterRun : List Kind → List String
  | .Letter v :: rest => v :: letterRun rest
  | _ => []

/-- C3: for every token sequence of the form a + b * c with a, b, c literals
or plain identifiers, the parsed tree is BinOp(+, a, BinOp(*, b, c)):
multiplicative operators bind tighter than additive ones. -/
theorem C3_mul_binds_tighter (t1 t2 t3 : Kind)
    (h1 : isAtom t1) (h2 : isAtom t2) (h3 : isAtom t3) :
    parseExpression [t1, Kind.Op "+", t2, Kind.Op "*", t3]
      = .ok (Node.BinOp (atomNode t1) "+" (Node.BinOp (atomNode t2) "*" (atomNode t3)), []) := by
  rcases h1 with ⟨v1, rfl⟩ | ⟨v1, rfl⟩ | ⟨v1, rfl⟩ <;>
    rcases h2 with ⟨v2, rfl⟩ | ⟨v2, rfl⟩ | ⟨v2, rfl⟩ <;>
      rcases h3 with ⟨v3, rfl⟩ | ⟨v3, rfl⟩ | ⟨v3, rfl⟩ <;> rfl

/-- Witness for C3 at a 1 + 2 * 3. -/
theorem C3_mul_binds_tighter_witness :
    parseExpression [Kind.Letter "a", Kind.Op "+", Kind.IntNumber 2, Kind.Op "*", Kind.IntNumber 3]
      = .ok (Node.BinOp (.Identifier "a" none) "+"
          (Node.BinOp (.Num (.IntNumber 2) none) "*" (.Num (.IntNumber 3) none)), []) :=
  C3_mul_binds_tighter (.Letter "a") (.IntNumber 2) (.IntNumber 3)
    (Or.inl ⟨"a", rfl⟩) (Or.inr (Or.inl ⟨2, rfl⟩)) (Or.inr (Or.inl ⟨3, rfl⟩))

/-- C5: for every token sequence n1 op n2 op n3 with each op additive and
n1, n2, n3 numeric literals, folding is left-associative:
BinOp(op2, BinOp(op1, n1, n2), n3). -/
theorem C5_addsub_left_assoc (o1 o2 : String) (t1 t2 t3 : Kind)
    (ho1 : o1 = "+" ∨ o1 = "-") (ho2 : o2 = "+" ∨ o2 = "-")
    (h1 : isNumTok t1) (h2 : isNumTok t2) (h3 : isNumTok t3) :
    parseExpression [t1, Kind.Op o1, t2, Kind.Op o2, t3]
      = .ok (Node.BinOp (Node.BinOp (atomNode t1) o1 (atomNode t2)) o2 (atomNode t3), []) := by
  rcases ho1 with rfl | rfl <;> rcases ho2 with rfl | rfl <;>
    rcases h1 with ⟨v1, rfl⟩ | ⟨v1, rfl⟩ <;>
      rcases h2 with ⟨v2, rfl⟩ | ⟨v2, rfl⟩ <;>
        rcases h3 with ⟨v3, rfl⟩ | ⟨v3, rfl⟩ <;> rfl

/-- Witness for C5 at 1 - 2 + 3. -/
theorem C5_addsub_left_assoc_witness :
    parseExpression [Kind.IntNumber 1, Kind.Op "-", Kind.IntNumber 2, Kind.Op "+", Kind.IntNumber 3]
      = .ok (Node.BinOp
          (Node.BinOp (.Num (.IntNumber 1) none) "-" (.Num (.IntNumber 2) none))
          "+" (.Num (.IntNumber 3) none), []) :=
  C5_addsub_left_assoc "-" "+" (.IntNumber 1) (.IntNumber 2) (.IntNumber 3)
    (Or.inr rfl) (Or.inl rfl) (Or.inl ⟨1, rfl⟩) (Or.inl ⟨2, rfl⟩) (Or.inl ⟨3, rfl⟩)

/-- C1 counterexample: on the tokens f 1 + 2, the expression loop does not
stop after attaching the call-argument chain — the + is consumed and folded,
so the result is BinOp(+, f with next 1, 2), not an Identifier with the +
left unconsumed as the claim states. -/
theorem C1_counterexample :
    parseExpression [Kind.Letter "f", Kind.IntNumber 1, Kind.Op "+", Kind.IntNumber 2]
        = .ok (Node.BinOp (.Identifier "f" (some (.Num (.IntNumber 1) none))) "+"
            (.Num (.IntNumber 2) none), [])
      ∧ parseExpression [Kind.Letter "f", Kind.IntNumber 1, Kind.Op "+", Kind.IntNumber 2]
        ≠ .ok (Node.Identifier "f" (some (.Num (.IntNumber 1) none)),
            [Kind.Op "+", Kind.IntNumber 2]) := by
  refine ⟨rfl, fun h => ?_⟩
  rw [show parseExpression [Kind.Letter "f", Kind.IntNumber 1, Kind.Op "+", Kind.IntNumber 2]
        = .ok (Node.BinOp (.Identifier "f" (some (.Num (.IntNumber 1) none))) "+"
            (.Num (.IntNumber 2) none), []) from rfl] at h
  simp at h

/-- C1 amended: when the call-argument-sugar rule fires (accumulated result
an Identifier, current token an identifier or numeric literal), the chain of
the maximal argument run is attached via the next field and the expression
loop continues (it does not stop), so later ASSIGN or additive folding still
applies to the result; e.g. for f 1 + 2 the + is consumed and the parse
yields BinOp(+, Identifier f with next 1, 2) with no tokens left. -/
theorem C1_amended (fuel : Nat) (v : String) (nx : Option Node) (t : Kind)
    (ts : List Kind) (ht : isArgTok t = true) :
    _exprLoop (fuel + 1) (.Identifier v nx) (t :: ts)
        = _exprLoop fuel
            (.Identifier v (some ((buildChain (callParamRun (t :: ts)).1).getD .None)))
            (callParamRun (t :: ts)).2
      ∧ (∀ name : String, ∀ a b : Int,
          parseExpression [Kind.Letter name, Kind.IntNumber a, Kind.Op "+", Kind.IntNumber b]
            = .ok (Node.BinOp (.Identifier name (some (.Num (.IntNumber a) none))) "+"
                (.Num (.IntNumber b) none), [])) := by
  constructor
  · cases t <;> simp_all [isArgTok, Kind.is_letter, Kind.is_numbers, _exprLoop,
      _function_call_parameter, Node.is_identifier, Node.set_next_identity,
      Bind.bind, Except.bind]
  · intro name a b
    rfl

/-- Witness for C1 amended at f 1 + 2. -/
theorem C1_amended_witness :
    _exprLoop 10 (.Identifier "f" none) [Kind.IntNumber 1, Kind.Op "+", Kind.IntNumber 2]
        = _exprLoop 9
            (.Identifier "f"
              (some ((buildChain (callParamRun
                [Kind.IntNumber 1, Kind.Op "+", Kind.IntNumber 2]).1).getD .None)))
            (callParamRun [Kind.IntNumber 1, Kind.Op "+", Kind.IntNumber 2]).2
      ∧ parseExpression [Kind.Letter "f", Kind.IntNumber 1, Kind.Op "+", Kind.IntNumber 2]
        = .ok (Node.BinOp (.Identifier "f" (some (.Num (.IntNumber 1) none))) "+"
            (.Num (.IntNumber 2) none), []) := by
  have h := C1_amended 9 "f" none (Kind.IntNumber 1) [Kind.Op "+", Kind.IntNumber 2] rfl
  exact ⟨h.1, h.2 "f" 1 2⟩

/-- C9: whenever the expression loop sees an identifier or numeric-literal
token while the accumulated result is not an Identifier node, parsing fails
with the error Syntax Error; e.g. the token sequence 1 2 fails. -/
theorem C9_arg_run_non_identifier (fuel : Nat) (result : Node) (t : Kind)
    (ts : List Kind) (ht : isArgTok t = true)
    (hr : result.is_identifier = false) :
    _exprLoop (fuel + 1) result (t :: ts) = .error "Syntax Error"
      ∧ parseExpression [Kind.IntNumber 1, Kind.IntNumber 2] = .error "Syntax Error" := by
  refine ⟨?_, rfl⟩
  cases t <;> simp_all [isArgTok, Kind.is_letter, Kind.is_numbers, _exprLoop]

/-- Witness for C9: a Num result followed by a numeric-literal token. -/
theorem C9_arg_run_non_identifier_witness :
    _exprLoop 5 (.Num (.IntNumber 1) none) [Kind.IntNumber 2] = .error "Syntax Error" :=
  (C9_arg_run_non_identifier 4 (.Num (.IntNumber 1) none) (.IntNumber 2) [] rfl rfl).1

/-- The right-to-left fold reproduces the collected run in encounter order:
the chain head is the first value and each next is the following one. -/
theorem chainElems_buildChain (vs : List KindValue) :
    chainElems (buildChain vs) = vs := by
  induction vs with
  | nil => rfl
  | cons v vs ih =>
      cases v <;> cases hb : buildChain vs <;>
        simp_all [buildChain, chainElems, chainElemsN]

/-- The argument-run collector consumes exactly a maximal prefix of
identifier/int/float tokens and leaves the remainder untouched. -/
theorem callParamRun_append (vs : List KindValue) :
    ∀ rest, (∀ t, rest.head? = some t → isArgTok t = false) →
      callParamRun (vs.map kindOfVal ++ rest) = (vs, rest) := by
  induction vs with
  | nil =>
      intro rest h
      cases rest with
      | nil => rfl
      | cons t r =>
          have ht := h t rfl
          cases t <;> simp_all [isArgTok, Kind.is_letter, Kind.is_numbers, callParamRun]
  | cons v vs ih =>
      intro rest h
      cases v <;> simp [kindOfVal, callParamRun, ih rest h]

/-- C4: the call-argument chain is built by folding from the last collected
value to the first, so the chain head is the first-encountered argument and
each next field points to the following one; an empty run yields Node::None;
the run consumed is the maximal prefix of identifier/int/float tokens; and
f 1 2 3 attaches the chain 1 to 2 to 3 as the next of the Identifier f. -/
theorem C4_call_argument_chain :
    (∀ vs : List KindValue, chainElems (buildChain vs) = vs)
      ∧ buildChain ([] : List KindValue) = none
      ∧ (∀ t ts, isArgTok t = false →
          _function_call_parameter (t :: ts) = .ok (Node.None, t :: ts))
      ∧ _function_call_parameter [] = .ok (Node.None, [])
      ∧ (∀ vs rest, (∀ t, rest.head? = some t → isArgTok t = false) →
          _function_call_parameter (vs.map kindOfVal ++ rest)
            = .ok ((buildChain vs).getD Node.None, rest))
      ∧ parseExpression [Kind.Letter "f", Kind.IntNumber 1, Kind.IntNumber 2, Kind.IntNumber 3]
          = .ok (.Identifier "f"
              (some (.Num (.IntNumber 1)
                (some (.Num (.IntNumber 2) (some (.Num (.IntNumber 3) none)))))), []) := by
  refine ⟨chainElems_buildChain, rfl, ?_, rfl, ?_, rfl⟩
  · intro t ts ht
    cases t <;> simp_all [isArgTok, Kind.is_letter, Kind.is_numbers,
      _function_call_parameter, callParamRun, buildChain]
  · intro vs rest h
    simp [_function_call_parameter, callParamRun_append vs rest h]

/-- Witness for C4 on the run x 7 with a trailing operator. -/
theorem C4_call_argument_chain_witness :
    _function_call_parameter [Kind.Letter "x", Kind.IntNumber 7, Kind.Op "+"]
      = .ok (.Identifier "x" (some (.Num (.IntNumber 7) none)), [Kind.Op "+"]) :=
  C4_call_argument_chain.2.2.2.2.1 [.String "x", .IntNumber 7] [Kind.Op "+"]
    (fun t h => by cases h; rfl)

/-- C7: a factor beginning with a left parenthesis consumes it, parses a
full expression, and requires a matching right parenthesis: if present it is
consumed and the inner node is returned unchanged, if absent the parse fails
with the missing-right-parenthesis error; inner errors propagate; and
(a + b) * c parses to BinOp(*, BinOp(+, a, b), c). -/
theorem C7_paren_factor :
    (∀ fuel ts n rest, _expression fuel ts = .ok (n, Kind.RPAREN :: rest) →
        _factor (fuel + 1) (Kind.LPAREN :: ts) = .ok (n, rest))
      ∧ (∀ fuel ts n ts2, _expression fuel ts = .ok (n, ts2) →
          ts2.head? ≠ some Kind.RPAREN →
          _factor (fuel + 1) (Kind.LPAREN :: ts) = .error "Expected String: )")
      ∧ (∀ fuel ts e, _expression fuel ts = .error e →
          _factor (fuel + 1) (Kind.LPAREN :: ts) = .error e)
      ∧ (∀ t1 t2 t3, isAtom t1 → isAtom t2 → isAtom t3 →
          parseExpression [Kind.LPAREN, t1, Kind.Op "+", t2, Kind.RPAREN, Kind.Op "*", t3]
            = .ok (Node.BinOp (Node.BinOp (atomNode t1) "+" (atomNode t2)) "*"
                (atomNode t3), [])) := by
  refine ⟨?_, ?_, ?_, ?_⟩
  · intro fuel ts n rest h
    simp [_factor, h, Bind.bind, Except.bind]
  · intro fuel ts n ts2 h h2
    simp only [_factor, h, Bind.bind, Except.bind]
    cases ts2 with
    | nil => rfl
    | cons a l => cases a <;> simp_all
  · intro fuel ts e h
    simp [_factor, h, Bind.bind, Except.bind]
  · intro t1 t2 t3 h1 h2 h3
    rcases h1 with ⟨v1, rfl⟩ | ⟨v1, rfl⟩ | ⟨v1, rfl⟩ <;>
      rcases h2 with ⟨v2, rfl⟩ | ⟨v2, rfl⟩ | ⟨v2, rfl⟩ <;>
        rcases h3 with ⟨v3, rfl⟩ | ⟨v3, rfl⟩ | ⟨v3, rfl⟩ <;> rfl

/-- Witness for C7: an unmatched parenthesis fails, and a matched one r
eturns the inner node. -/
theorem C7_paren_factor_witness :
    _factor 7 [Kind.LPAREN, Kind.IntNumber 1, Kind.Op "+", Kind.IntNumber 2]
        = .error "Expected String: )"
      ∧ _factor 7 [Kind.LPAREN, Kind.IntNumber 1, Kind.RPAREN]
        = .ok (.Num (.IntNumber 1) none, []) :=
  ⟨C7_paren_factor.2.1 6 [Kind.IntNumber 1, Kind.Op "+", Kind.IntNumber 2]
      (.BinOp (.Num (.IntNumber 1) none) "+" (.Num (.IntNumber 2) none)) [] rfl (by simp),
   C7_paren_factor.1 6 [Kind.IntNumber 1, Kind.RPAREN] (.Num (.IntNumber 1) none) [] rfl⟩

/-- C8: a factor beginning with an identifier peeks exactly one token: if it
is the operator symbol = it is consumed, a full expression is parsed as the
right-hand side and the result is BinOp(identifier, "=", rhs) — not an
Assign node; any other peeked token is restored unchanged and the bare
Identifier is returned (also at end of input). -/
theorem C8_ident_inline_assign :
    (∀ fuel v ts n ts2, _expression fuel ts = .ok (n, ts2) →
        _factor (fuel + 1) (Kind.Letter v :: Kind.Op "=" :: ts)
          = .ok (Node.BinOp (Node.Identifier v none) "=" n, ts2))
      ∧ (∀ fuel v ts e, _expression fuel ts = .error e →
          _factor (fuel + 1) (Kind.Letter v :: Kind.Op "=" :: ts) = .error e)
      ∧ (∀ fuel v t ts, (∀ s, t = Kind.Op s → s ≠ "=") →
          _factor (fuel + 1) (Kind.Letter v :: t :: ts)
            = .ok (Node.Identifier v none, t :: ts))
      ∧ (∀ fuel v, _factor (fuel + 1) [Kind.Letter v]
          = .ok (Node.Identifier v none, [])) := by
  refine ⟨?_, ?_, ?_, ?_⟩
  · intro fuel v ts n ts2 h
    simp [_factor, h, Bind.bind, Except.bind]
  · intro fuel v ts e h
    simp [_factor, h, Bind.bind, Except.bind]
  · intro fuel v t ts h
    cases t <;> simp_all [_factor]
  · intro fuel v
    rfl

/-- Witness for C8: x = 5 builds the inline BinOp form, and x + stops at
the restored +. -/
theorem C8_ident_inline_assign_witness :
    _factor 9 [Kind.Letter "x", Kind.Op "=", Kind.IntNumber 5]
        = .ok (Node.BinOp (Node.Identifier "x" none) "=" (.Num (.IntNumber 5) none), [])
      ∧ _factor 9 [Kind.Letter "x", Kind.Op "+", Kind.IntNumber 5]
        = .ok (Node.Identifier "x" none, [Kind.Op "+", Kind.IntNumber 5]) :=
  ⟨C8_ident_inline_assign.1 8 "x" [Kind.IntNumber 5] (.Num (.IntNumber 5) none) [] rfl,
   C8_ident_inline_assign.2.2.1 8 "x" (Kind.Op "+") [Kind.IntNumber 5]
     (fun s hs => by cases hs; decide)⟩

/-- The parameter collector, run with any already-seen set, yields parameter
names that are pairwise distinct and disjoint from the seen set. -/
theorem fdpAux_ok_names :
    ∀ ts seen ps rest, fdpAux ts seen = .ok (ps, rest) →
      (paramNames ps).Nodup ∧ ∀ n ∈ paramNames ps, n ∉ seen := by
  intro ts
  induction ts with
  | nil =>
      intro seen ps rest h
      simp only [fdpAux] at h
      cases h
      simp [paramNames]
  | cons t ts ih =>
      intro seen ps rest h
      cases t with
      | Letter name =>
          simp only [fdpAux] at h
          by_cases hm : name ∈ seen
          · simp [hm] at h
          · simp only [hm, if_false, if_neg] at h
            cases hrec : fdpAux ts (name :: seen) with
            | error e => rw [hrec] at h; simp [Bind.bind, Except.bind] at h
            | ok p =>
                rw [hrec] at h
                simp only [Bind.bind, Except.bind, Except.ok.injEq] at h
                cases h
                obtain ⟨hnd, hdisj⟩ := ih (name :: seen) p.1 p.2 hrec
                constructor
                · simp only [paramNames, List.filterMap_cons, Node.identity_value,
                    List.nodup_cons]
                  refine ⟨fun hmem => ?_, hnd⟩
                  exact (hdisj name hmem) (List.mem_cons_self name seen)
                · intro n hn
                  simp only [paramNames, List.filterMap_cons, Node.identity_value,
                    List.mem_cons] at hn
                  rcases hn with rfl | hn
                  · exact hm
                  · exact fun hns => (hdisj n hn) (List.mem_cons_of_mem _ hns)
      | None => simp only [fdpAux] at h; cases h; simp [paramNames]
      | IntNumber v => simp only [fdpAux] at h; cases h; simp [paramNames]
      | FloatNumber v => simp only [fdpAux] at h; cases h; simp [paramNames]
      | Op v => simp only [fdpAux] at h; cases h; simp [paramNames]
      | LPAREN => simp only [fdpAux] at h; cases h; simp [paramNames]
      | RPAREN => simp only [fdpAux] at h; cases h; simp [paramNames]
      | Keyword v => simp only [fdpAux] at h; cases h; simp [paramNames]
      | FNOP => simp only [fdpAux] at h; cases h; simp [paramNames]
      | ASSIGN => simp only [fdpAux] at h; cases h; simp [paramNames]

/-- If the identifier run has a repeated name, or hits the seen set, the
parameter collector fails with the duplicate-parameter error. -/
theorem fdpAux_dup_error :
    ∀ ts seen, (¬ (letterRun ts).Nodup ∨ ∃ n ∈ letterRun ts, n ∈ seen) →
      ∃ nm, fdpAux ts seen = .error ("parameter name is duplicated! " ++ nm) := by
  intro ts
  induction ts with
  | nil =>
      intro seen h
      simp [letterRun] at h
  | cons t ts ih =>
      intro seen h
      cases t with
      | Letter name =>
          by_cases hm : name ∈ seen
          · exact ⟨name, by simp [fdpAux, hm]⟩
          · have h2 : ¬ (letterRun ts).Nodup ∨ ∃ n ∈ letterRun ts, n ∈ name :: seen := by
              rcases h with h | ⟨n, hn, hns⟩
              · rw [letterRun, List.nodup_cons] at h
                push_neg at h
                by_cases hin : name ∈ letterRun ts
                · exact Or.inr ⟨name, hin, List.mem_cons_self name seen⟩
                · exact Or.inl (h hin)
              · rw [letterRun, List.mem_cons] at hn
                rcases hn with rfl | hn
                · exact absurd hns hm
                · exact Or.inr ⟨n, hn, List.mem_cons_of_mem _ hns⟩
            obtain ⟨nm, hnm⟩ := ih (name :: seen) h2
            exact ⟨nm, by simp [fdpAux, hm, hnm, Bind.bind, Except.bind]⟩
      | None => simp [letterRun] at h
      | IntNumber v => simp [letterRun] at h
      | FloatNumber v => simp [letterRun] at h
      | Op v => simp [letterRun] at h
      | LPAREN => simp [letterRun] at h
      | RPAREN => simp [letterRun] at h
      | Keyword v => simp [letterRun] at h
      | FNOP => simp [letterRun] at h
      | ASSIGN => simp [letterRun] at h

/-- C6: a function-definition parameter list containing the same name twice
fails with the duplicate-parameter error, and every successfully constructed
FunctionDef node has pairwise-distinct parameter names. -/
theorem C6_distinct_params :
    (∀ ts, ¬ (letterRun ts).Nodup →
        ∃ nm, _function_def_parameter ts
          = .error ("parameter name is duplicated! " ++ nm))
      ∧ (∀ ts ps rest, _function_def_parameter ts = .ok (ps, rest) →
          (paramNames ps).Nodup)
      ∧ (∀ fuel ts n rest, _function_def fuel ts = .ok (n, rest) →
          ∃ name ps body, n = Node.FunctionDef name ps body ∧ (paramNames ps).Nodup) := by
  refine ⟨?_, ?_, ?_⟩
  · intro ts h
    exact fdpAux_dup_error ts [] (Or.inl h)
  · intro ts ps rest h
    exact (fdpAux_ok_names ts [] ps rest h).1
  · intro fuel ts n rest h
    cases fuel with
    | zero => simp [_function_def] at h
    | succ fuel =>
        cases ts with
        | nil => simp [_function_def] at h
        | cons t ts =>
            cases t <;> simp only [_function_def] at h <;> try exact absurd h (by simp)
            case Letter name =>
              cases hps : _function_def_parameter ts with
              | error e => rw [hps] at h; simp [Bind.bind, Except.bind] at h
              | ok ps2 =>
                  rw [hps] at h
                  simp only [Bind.bind, Except.bind] at h
                  cases hb : _function_expression fuel ps2.2 with
                  | error e =>
                      rw [hb] at h; simp [Bind.bind, Except.bind] at h
                  | ok b =>
                      rw [hb] at h
                      simp only [Bind.bind, Except.bind, Except.ok.injEq] at h
                      cases h
                      exact ⟨name, ps2.1, b.1, rfl,
                        (fdpAux_ok_names ts [] ps2.1 ps2.2 hps).1⟩

/-- Witness for C6: the parameter list x y x fails with the duplicate error,
and fn f x y FNOP 1 constructs a FunctionDef with distinct parameters. -/
theorem C6_distinct_params_witness :
    (∃ nm, _function_def_parameter [Kind.Letter "x", Kind.Letter "y", Kind.Letter "x"]
        = .error ("parameter name is duplicated! " ++ nm))
      ∧ ∃ name ps body,
          Node.FunctionDef "f" [Node.Identifier "x" none, Node.Identifier "y" none]
              (Node.Num (.IntNumber 1) none)
            = Node.FunctionDef name ps body ∧ (paramNames ps).Nodup :=
  ⟨C6_distinct_params.1 [Kind.Letter "x", Kind.Letter "y", Kind.Letter "x"] (by decide),
   C6_distinct_params.2.2 20
     [Kind.Letter "f", Kind.Letter "x", Kind.Letter "y", Kind.FNOP, Kind.IntNumber 1]
     (Node.FunctionDef "f" [Node.Identifier "x" none, Node.Identifier "y" none]
       (Node.Num (.IntNumber 1) none)) [] rfl⟩

/-- If the splitter parses a statement list and the evaluator always
succeeds, the driver loop evaluates them all and returns them appended to
the accumulated ast vector. -/
theorem loop_of_split {σ : Type} (eval : σ → Node → σ × Except String Value)
    (hev : ∀ s n, ∃ s1 v, eval s n = (s1, .ok v)) :
    ∀ fuel ts stmts, splitStmtsAux fuel ts = .ok stmts →
      ∀ s ast last, ∃ s2 last2,
        parseLoop eval fuel s ts ast last = (s2, .ok (ast ++ stmts, last2)) := by
  intro fuel
  induction fuel with
  | zero => intro ts stmts h; simp [splitStmtsAux] at h
  | succ fuel ih =>
      intro ts stmts h s ast last
      by_cases hn : (currTok ts).is_none = true
      · simp only [splitStmtsAux, hn, if_pos, Except.ok.injEq] at h
        exact ⟨s, last, by simp [parseLoop, hn, h.symm]⟩
      · simp only [splitStmtsAux, hn, if_neg, Bool.false_eq_true, if_false] at h
        cases hstmt : stmt (stmtFuel ts) ts with
        | error e => rw [hstmt] at h; simp [Bind.bind, Except.bind] at h
        | ok p =>
            rw [hstmt] at h
            simp only [Bind.bind, Except.bind] at h
            cases haux : splitStmtsAux fuel p.2 with
            | error e => rw [haux] at h; simp at h
            | ok rest =>
                rw [haux] at h
                simp only [Except.ok.injEq] at h
                obtain ⟨s1, v, hev1⟩ := hev s p.1
                obtain ⟨s2, last2, hloop⟩ := ih p.2 rest haux s1 (ast ++ [p.1]) (some v)
                refine ⟨s2, last2, ?_⟩
                simp [parseLoop, hn, hstmt, hev1, hloop, h.symm]

/-- If the driver loop succeeds, the splitter parses the same statements,
appended to the accumulated ast vector; an empty remainder leaves state,
vector and last value untouched. -/
theorem split_of_loop {σ : Type} (eval : σ → Node → σ × Except String Value) :
    ∀ fuel s ts ast last s2 ast2 last2,
      parseLoop eval fuel s ts ast last = (s2, .ok (ast2, last2)) →
      ∃ stmts, splitStmtsAux fuel ts = .ok stmts ∧ ast2 = ast ++ stmts
        ∧ (stmts = [] → s2 = s ∧ last2 = last) := by
  intro fuel
  induction fuel with
  | zero => intro s ts ast last s2 ast2 last2 h; simp [parseLoop] at h
  | succ fuel ih =>
      intro s ts ast last s2 ast2 last2 h
      by_cases hn : (currTok ts).is_none = true
      · simp only [parseLoop, hn, if_pos, Prod.mk.injEq, Except.ok.injEq] at h
        refine ⟨[], by simp [splitStmtsAux, hn], ?_, ?_⟩
        · simp [h.2.1.symm]
        · exact fun _ => ⟨h.1.symm, h.2.2.symm⟩
      · cases hstmt : stmt (stmtFuel ts) ts with
        | error e =>
            simp only [parseLoop, hn, if_neg, Bool.false_eq_true, if_false, hstmt] at h
            simp at h
        | ok p =>
            cases hev1 : eval s p.1 with
            | mk s1 r =>
                cases r with
                | error e =>
                    simp only [parseLoop, hn, if_neg, Bool.false_eq_true, if_false,
                      hstmt, hev1] at h
                    simp at h
                | ok v =>
                    simp only [parseLoop, hn, if_neg, Bool.false_eq_true, if_false,
                      hstmt, hev1] at h
                    obtain ⟨stmts, haux, hast, _⟩ :=
                      ih s1 p.2 (ast ++ [p.1]) (some v) s2 ast2 last2 h
                    refine ⟨p.1 :: stmts, ?_, ?_, by simp⟩
                    · simp [splitStmtsAux, hn, hstmt, haux, Bind.bind, Except.bind]
                    · simp [hast]

/-- A successful empty split means the stopping condition of the loop held: the
current token is the sentinel. -/
theorem splitStmtsAux_ok_nil :
    ∀ fuel ts, splitStmtsAux fuel ts = .ok [] → (currTok ts).is_none = true := by
  intro fuel ts h
  cases fuel with
  | zero => simp [splitStmtsAux] at h
  | succ fuel =>
      by_cases hn : (currTok ts).is_none = true
      · exact hn
      · simp only [splitStmtsAux, hn, if_neg, Bool.false_eq_true, if_false] at h
        cases hstmt : stmt (stmtFuel ts) ts with
        | error e => rw [hstmt] at h; simp [Bind.bind, Except.bind] at h
        | ok p =>
            rw [hstmt] at h
            simp only [Bind.bind, Except.bind] at h
            cases haux : splitStmtsAux fuel p.2 with
            | error e => rw [haux] at h; simp at h
            | ok rest => rw [haux] at h; simp at h

/-- C2: parse returns Ok (the extracted numeric summary of the single
evaluated value of the statement) only when exactly one top-level statement is
parsed from the queue; a queue splitting into more than one statement fails
with the error Syntax Error even when each statement evaluates fine, and the
empty queue fails with the error None. -/
theorem C2_exactly_one_statement :
    (∀ (σ : Type) (eval : σ → Node → σ × Except String Value)
        (getResult : Value → Option ℚ) (s : σ),
        parse eval getResult s [] = (s, .error "None"))
      ∧ (∀ (σ : Type) (eval : σ → Node → σ × Except String Value)
          (getResult : Value → Option ℚ) (s : σ) (ts : List Kind)
          (stmts : List Node),
          (∀ s1 n, ∃ s2 v, eval s1 n = (s2, .ok v)) →
          splitStmts ts = .ok stmts → 1 < stmts.length →
          (parse eval getResult s ts).2 = .error "Syntax Error")
      ∧ (∀ (σ : Type) (eval : σ → Node → σ × Except String Value)
          (getResult : Value → Option ℚ) (s : σ) (ts : List Kind)
          (s2 : σ) (r : Option ℚ),
          parse eval getResult s ts = (s2, .ok r) →
          ∃ st, splitStmts ts = .ok [st])
      ∧ (∀ (σ : Type) (eval : σ → Node → σ × Except String Value)
          (getResult : Value → Option ℚ) (s : σ) (ts : List Kind) (st : Node),
          splitStmts ts = .ok [st] →
          ∀ s2 v, eval s st = (s2, .ok v) →
          parse eval getResult s ts = (s2, .ok (getResult v))) := by
  refine ⟨?_, ?_, ?_, ?_⟩
  · intro σ eval getResult s
    rfl
  · intro σ eval getResult s ts stmts hev hsplit hlen
    obtain ⟨s2, last2, hloop⟩ :=
      loop_of_split eval hev (ts.length + 1) ts stmts hsplit s [] none
    simp only [List.nil_append] at hloop
    simp [parse, hloop, hlen]
  · intro σ eval getResult s ts s2 r h
    simp only [parse] at h
    cases hloop : parseLoop eval (ts.length + 1) s ts [] none with
    | mk s1 res =>
        rw [hloop] at h
        cases res with
        | error e => simp at h
        | ok q =>
            by_cases hlen : 1 < q.1.length
            · simp [hlen] at h
            · simp only [hlen, if_neg, if_false] at h
              cases hq2 : q.2 with
              | none => rw [hq2] at h; simp at h
              | some v =>
                  rw [hq2] at h
                  obtain ⟨stmts, haux, hast, hnil⟩ :=
                    split_of_loop eval (ts.length + 1) s ts [] none s1 q.1 q.2
                      (by rw [hloop])
                  cases stmts with
                  | nil =>
                      exact absurd ((hnil rfl).2.symm.trans hq2) (by simp)
                  | cons st rest =>
                      cases rest with
                      | nil => exact ⟨st, haux⟩
                      | cons st2 rest2 =>
                          rw [hast] at hlen
                          simp at hlen
  · intro σ eval getResult s ts st hsplit s2 v hev1
    rw [splitStmts] at hsplit
    by_cases hn : (currTok ts).is_none = true
    · simp [splitStmtsAux, hn] at hsplit
    · simp only [splitStmtsAux, hn, if_neg, Bool.false_eq_true, if_false] at hsplit
      cases hstmt : stmt (stmtFuel ts) ts with
      | error e => rw [hstmt] at hsplit; simp [Bind.bind, Except.bind] at hsplit
      | ok p =>
          rw [hstmt] at hsplit
          simp only [Bind.bind, Except.bind] at hsplit
          cases haux : splitStmtsAux ts.length p.2 with
          | error e => rw [haux] at hsplit; simp at hsplit
          | ok rest =>
              rw [haux] at hsplit
              simp only [Except.ok.injEq, List.cons.injEq] at hsplit
              obtain ⟨rfl, rfl⟩ := hsplit
              have hn2 := splitStmtsAux_ok_nil ts.length p.2 haux
              cases ts with
              | nil => simp [currTok, Kind.is_none] at hn
              | cons t0 ts0 =>
                  have hloop : parseLoop eval ((t0 :: ts0).length + 1) s (t0 :: ts0) [] none
                      = (s2, .ok ([p.1], some v)) := by
                    simp only [parseLoop, hn, if_neg, Bool.false_eq_true, if_false,
                      hstmt, hev1, List.length_cons]
                    simp [parseLoop, hn2]
                  simp only [List.length_cons] at hloop
                  simp [parse, hloop]

/-- Witness for C2: two function-definition statements in one queue fail
with the multiple-statement syntax error under an always-ok evaluator. -/
theorem C2_exactly_one_statement_witness :
    (parse trivEval trivGetResult ()
        [Kind.Keyword "fn", Kind.Letter "f", Kind.FNOP, Kind.IntNumber 1,
         Kind.Keyword "fn", Kind.Letter "g", Kind.FNOP, Kind.IntNumber 2]).2
      = .error "Syntax Error" :=
  C2_exactly_one_statement.2.1 Unit trivEval trivGetResult ()
    [Kind.Keyword "fn", Kind.Letter "f", Kind.FNOP, Kind.IntNumber 1,
     Kind.Keyword "fn", Kind.Letter "g", Kind.FNOP, Kind.IntNumber 2]
    [Node.FunctionDef "f" [] (.Num (.IntNumber 1) none),
     Node.FunctionDef "g" [] (.Num (.IntNumber 2) none)]
    (fun s1 n => ⟨(), .IntNumber 0, rfl⟩) rfl (by decide)

/-- The driver loop under the recording evaluator: every statement the
splitter finds is pushed onto the evaluator state, in order. -/
theorem recordLoop :
    ∀ fuel ts stmts, splitStmtsAux fuel ts = .ok stmts →
      ∀ s ast last, ∃ last2, parseLoop recordEval fuel s ts ast last
        = (s ++ stmts, .ok (ast ++ stmts, last2)) := by
  intro fuel
  induction fuel with
  | zero => intro ts stmts h; simp [splitStmtsAux] at h
  | succ fuel ih =>
      intro ts stmts h s ast last
      by_cases hn : (currTok ts).is_none = true
      · simp only [splitStmtsAux, hn, if_pos, Except.ok.injEq] at h
        exact ⟨last, by simp [parseLoop, hn, h.symm]⟩
      · simp only [splitStmtsAux, hn, if_neg, Bool.false_eq_true, if_false] at h
        cases hstmt : stmt (stmtFuel ts) ts with
        | error e => rw [hstmt] at h; simp [Bind.bind, Except.bind] at h
        | ok p =>
            rw [hstmt] at h
            simp only [Bind.bind, Except.bind] at h
            cases haux : splitStmtsAux fuel p.2 with
            | error e => rw [haux] at h; simp at h
            | ok rest =>
                rw [haux] at h
                simp only [Except.ok.injEq] at h
                obtain ⟨last2, hloop⟩ :=
                  ih p.2 rest haux (s ++ [p.1]) (ast ++ [p.1]) (some (.IntNumber 0))
                refine ⟨last2, ?_⟩
                simp [parseLoop, hn, hstmt, recordEval, hloop, h.symm]

/-- C10: on a queue splitting into more than one statement, the evaluator is
invoked once per statement in parse order before parse returns the
multiple-statement syntax error: the final state of the recording evaluator lists
every parsed statement, including the excess ones, in the same return that
carries the error. -/
theorem C10_evaluates_all_before_error :
    ∀ ts stmts, splitStmts ts = .ok stmts → 1 < stmts.length →
      parse recordEval trivGetResult [] ts = (stmts, .error "Syntax Error") := by
  intro ts stmts h hlen
  obtain ⟨last2, hloop⟩ := recordLoop (ts.length + 1) ts stmts h [] [] none
  simp only [List.nil_append] at hloop
  simp [parse, hloop, hlen]

/-- Witness for C10: three expression-statement queue (two fn defs plus one)
records both statements and fails. -/
theorem C10_evaluates_all_before_error_witness :
    parse recordEval trivGetResult []
        [Kind.Keyword "fn", Kind.Letter "h", Kind.FNOP, Kind.IntNumber 3,
         Kind.Keyword "fn", Kind.Letter "k", Kind.Letter "a", Kind.FNOP, Kind.Letter "a"]
      = ([Node.FunctionDef "h" [] (.Num (.IntNumber 3) none),
          Node.FunctionDef "k" [Node.Identifier "a" none] (.Identifier "a" none)],
         .error "Syntax Error") :=
  C10_evaluates_all_before_error
    [Kind.Keyword "fn", Kind.Letter "h", Kind.FNOP, Kind.IntNumber 3,
     Kind.Keyword "fn", Kind.Letter "k", Kind.Letter "a", Kind.FNOP, Kind.Letter "a"]
    [Node.FunctionDef "h" [] (.Num (.IntNumber 3) none),
     Node.FunctionDef "k" [Node.Identifier "a" none] (.Identifier "a" none)]
    rfl (by decide)

end RustInterp
